import Mathlib

/-!
Verification of the species/evolution resolution and merge pipeline of the
PokéAPI seeding script.  The TypeScript source is shallowly embedded: network
calls become oracle functions (String to Option of the decoded body), the two
module-level caches become an explicit CacheState threaded through the
functions, and JavaScript arrays/Maps become lists/association lists.
JavaScript numbers are modelled as Int (or Nat for the nonnegative ids), and
the stable Array.prototype.sort is modelled by a stable insertion sort.
-/

/-- Whitespace characters skipped by the JavaScript parseInt. -/
def isSpaceJS (c : Char) : Bool :=
  c == ' ' || c == '\t' || c == '\n' || c == '\r' || c == '\x0b' || c == '\x0c'

/-- Numeric value of a list of decimal digit characters. -/
def digitsToNat (ds : List Char) : Nat :=
  ds.foldl (fun n c => 10 * n + (c.toNat - '0'.toNat)) 0

/-- Hexadecimal digit test for the 0x branch of parseInt. -/
def isHexDigitJS (c : Char) : Bool :=
  c.isDigit || ('a' ≤ c && c ≤ 'f') || ('A' ≤ c && c ≤ 'F')

/-- Numeric value of one hexadecimal digit character. -/
def hexDigitToNat (c : Char) : Nat :=
  if c.isDigit then c.toNat - '0'.toNat
  else if 'a' ≤ c && c ≤ 'f' then c.toNat - 'a'.toNat + 10
  else c.toNat - 'A'.toNat + 10

/-- Numeric value of a list of hexadecimal digit characters. -/
def hexDigitsToNat (ds : List Char) : Nat :=
  ds.foldl (fun n c => 16 * n + hexDigitToNat c) 0

/-- Model of the JavaScript parseInt with no radix argument: skip leading
whitespace, read an optional sign, honour a 0x/0X prefix, then read the
longest digit run; none models NaN. -/
def parseIntJS (s : String) : Option Int :=
  let chars := s.data.dropWhile isSpaceJS
  let (sign, rest) : Int × List Char :=
    match chars with
    | '-' :: r => (-1, r)
    | '+' :: r => (1, r)
    | r => (1, r)
  match rest with
  | '0' :: x :: r2 =>
    if x == 'x' || x == 'X' then
      let hexDigits := r2.takeWhile isHexDigitJS
      if hexDigits.isEmpty then none else some (sign * (hexDigitsToNat hexDigits : Int))
    else
      let ds := rest.takeWhile Char.isDigit
      if ds.isEmpty then none else some (sign * (digitsToNat ds : Int))
  | _ =>
    let ds := rest.takeWhile Char.isDigit
    if ds.isEmpty then none else some (sign * (digitsToNat ds : Int))

/-- Model of str.charAt(0).toUpperCase() + str.slice(1). -/
def capitalize (str : String) : String :=
  match str.data with
  | [] => ""
  | c :: cs => String.mk (c.toUpper :: cs)

/-- Model of String.prototype.toLowerCase as a character-by-character map
(the library's String.toLower has the same value but is compiled by
well-founded recursion, which blocks definitional evaluation; the names
compared by the script are plain ASCII, where the two agree). -/
def toLowerStr (s : String) : String := String.mk (s.data.map Char.toLower)

/-- Model of s.padStart(3, the zero character). -/
def padStart3 (s : String) : String :=
  if 3 ≤ s.length then s else String.mk (List.replicate (3 - s.length) '0') ++ s

/-- Character-list prefix test (pattern first). -/
def charsStartWith : List Char → List Char → Bool
  | [], _ => true
  | _ :: _, [] => false
  | p :: ps, c :: cs => p == c && charsStartWith ps cs

/-- Scan for the first position where the literal pokemon-species/ is followed
by at least one decimal digit, returning the maximal digit run there.  This is
the regex pokemon-species\/(\d+) applied by extractEvolutions to a species
url. -/
def matchSpeciesIdChars : List Char → Option String
  | [] => none
  | c :: rest =>
    if charsStartWith "pokemon-species/".data (c :: rest) then
      let after := (c :: rest).drop "pokemon-species/".data.length
      let digits := after.takeWhile Char.isDigit
      if digits.isEmpty then matchSpeciesIdChars rest else some (String.mk digits)
    else matchSpeciesIdChars rest

/-- First capture group of url.match over pokemon-species\/(\d+). -/
def matchSpeciesId (url : String) : Option String :=
  matchSpeciesIdChars url.data

/-- Named reference object as returned by the API: a name plus a locator. -/
structure NamedRef where
  name : String
  url : String
deriving Repr, DecidableEq

/-- One entry of evolution_details; the code reads only min_level and
trigger.name, defending against an absent trigger with optional chaining. -/
structure EvolutionDetail where
  min_level : Option Int
  trigger : Option NamedRef
deriving Repr, DecidableEq

/-- Recursive node of the evolution chain document. -/
inductive EvolutionChainLink : Type where
  | mk : NamedRef → List EvolutionDetail → List EvolutionChainLink → EvolutionChainLink
deriving Repr

/-- Species field of a chain node. -/
def EvolutionChainLink.species : EvolutionChainLink → NamedRef
  | .mk s _ _ => s

/-- Evolution_details field of a chain node. -/
def EvolutionChainLink.evolution_details : EvolutionChainLink → List EvolutionDetail
  | .mk _ d _ => d

/-- Evolves_to field of a chain node. -/
def EvolutionChainLink.evolves_to : EvolutionChainLink → List EvolutionChainLink
  | .mk _ _ e => e

/-- Decoded body of the chain endpoint. -/
structure PokeApiEvolutionChain where
  id : Nat
  chain : EvolutionChainLink
deriving Repr

/-- One variety entry of a species document. -/
structure PokeApiVariety where
  is_default : Bool
  pokemon : NamedRef
deriving Repr, DecidableEq

/-- Decoded body of the species endpoint.  The evolution_chain url is kept as
an Option String: the code guards the access with optional chaining and a
truthiness test, so absence and the empty string both disable the chain
lookup. -/
structure PokeApiPokemonSpecies where
  id : Nat
  name : String
  evolution_chain : Option String
  varieties : List PokeApiVariety
deriving Repr, DecidableEq

/-- One types entry of the form endpoint, carrying its slot number. -/
structure PokeApiTypeSlot where
  slot : Int
  type : NamedRef
deriving Repr, DecidableEq

/-- One stats entry of the form endpoint. -/
structure PokeApiStat where
  base_stat : Int
  stat : NamedRef
deriving Repr, DecidableEq

/-- One version_group_details entry of a move. -/
structure VersionGroupDetail where
  level_learned_at : Int
  move_learn_method : NamedRef
  version_group : NamedRef
deriving Repr, DecidableEq

/-- One moves entry of the form endpoint. -/
structure PokeApiMove where
  move : NamedRef
  version_group_details : List VersionGroupDetail
deriving Repr, DecidableEq

/-- Decoded body of the form (pokemon) endpoint. -/
structure PokeApiPokemon where
  id : Nat
  name : String
  types : List PokeApiTypeSlot
  stats : List PokeApiStat
  moves : List PokeApiMove
deriving Repr, DecidableEq

/-- Six named base stats of the output record. -/
structure BaseStats where
  hp : Int
  attack : Int
  defense : Int
  special_attack : Int
  special_defense : Int
  speed : Int
deriving Repr, DecidableEq

/-- One evolutions entry of the output record. -/
structure EvolutionDataOutput where
  target_species_id : String
  min_level : Option Int
  trigger : String
deriving Repr, DecidableEq

/-- The persisted output record for one species. -/
structure PokemonSpeciesOutput where
  species_id : String
  display_name : String
  generation : Int
  primary_type : String
  secondary_type : Option String
  base_stats : BaseStats
  move_pool : List String
  is_starter_candidate : Bool
  evolutions : List EvolutionDataOutput
deriving Repr, DecidableEq

/-- TYPE_MAP lookup table of the source, as a partial function. -/
def TYPE_MAP (s : String) : Option String :=
  match s with
  | "normal" => some "Normal"
  | "fire" => some "Fire"
  | "water" => some "Water"
  | "grass" => some "Grass"
  | "electric" => some "Electric"
  | "ice" => some "Ice"
  | "fighting" => some "Fighting"
  | "poison" => some "Poison"
  | "ground" => some "Ground"
  | "flying" => some "Flying"
  | "psychic" => some "Psychic"
  | "bug" => some "Bug"
  | "rock" => some "Rock"
  | "ghost" => some "Ghost"
  | "dragon" => some "Dragon"
  | "dark" => some "Dark"
  | "steel" => some "Steel"
  | "fairy" => some "Fairy"
  | _ => none

/-- Map an API type name to the output enum name, with the Unknown sentinel. -/
def mapType (apiType : String) : String :=
  match TYPE_MAP (toLowerStr apiType) with
  | some t => t
  | none => "Unknown"

/-- Fold of mapStats: stats named by STAT_MAP overwrite the zero-initialised
record, unknown names are ignored. -/
def mapStats (apiStats : List PokeApiStat) : BaseStats :=
  apiStats.foldl (fun stats stat =>
    match stat.stat.name with
    | "hp" => { stats with hp := stat.base_stat }
    | "attack" => { stats with attack := stat.base_stat }
    | "defense" => { stats with defense := stat.base_stat }
    | "special-attack" => { stats with special_attack := stat.base_stat }
    | "special-defense" => { stats with special_defense := stat.base_stat }
    | "speed" => { stats with speed := stat.base_stat }
    | _ => stats) ⟨0, 0, 0, 0, 0, 0⟩

/-- Model of JavaScript Set.add: append the element unless already present
(insertion order, first occurrence wins). -/
def addUnique (acc : List String) (x : String) : List String :=
  if x ∈ acc then acc else acc ++ [x]

/-- Inner double loop of extractLevelUpMoves, accumulating the Set contents
in insertion order. -/
def collectLevelUpMoves (moves : List PokeApiMove) : List String :=
  moves.foldl (fun acc moveData =>
    moveData.version_group_details.foldl (fun acc2 detail =>
      if detail.move_learn_method.name == "level-up" then addUnique acc2 moveData.move.name
      else acc2) acc) []

/-- Stable insertion of x into l: x goes before the first y with le x y,
matching where a stable comparator sort would place it. -/
def insertSorted (le : α → α → Bool) (x : α) : List α → List α
  | [] => [x]
  | y :: ys => if le x y then x :: y :: ys else y :: insertSorted le x ys

/-- Stable sort by the boolean relation le, modelling the (stable)
Array.prototype.sort of modern JavaScript engines. -/
def stableSort (le : α → α → Bool) : List α → List α
  | [] => []
  | x :: xs => insertSorted le x (stableSort le xs)

/-- Lexicographic string order used by the default Array.prototype.sort
comparator on the kebab-case move names. -/
def strLe (a b : String) : Bool := decide (a ≤ b)

/-- Array.from(levelUpMoves).sort() of extractLevelUpMoves. -/
def extractLevelUpMoves (moves : List PokeApiMove) : List String :=
  stableSort strLe (collectLevelUpMoves moves)

/-- Association-list lookup modelling Map.prototype.get / has. -/
def mapGet (m : List (String × α)) (k : String) : Option α :=
  match m with
  | [] => none
  | (k', v) :: rest => if k' = k then some v else mapGet rest k

/-- Association-list insertion modelling Map.prototype.set (the new binding
shadows any previous one). -/
def mapSet (m : List (String × α)) (k : String) (v : α) : List (String × α) :=
  (k, v) :: m

/-- The two module-level caches: url to chain document, and url to computed
maximum depth. -/
structure CacheState where
  dataCache : List (String × PokeApiEvolutionChain)
  depthCache : List (String × Nat)
deriving Repr

/-- The initially empty caches of a fresh run. -/
def emptyCache : CacheState := ⟨[], []⟩

mutual

/-- Recursive depth computation of the source: a childless node yields the
current depth, otherwise the maximum over the children evaluated one level
deeper. -/
def calculateMaxDepth : EvolutionChainLink → Nat → Nat
  | .mk _ _ evolves_to, currentDepth =>
    if evolves_to.isEmpty then currentDepth
    else maxDepthFold evolves_to currentDepth currentDepth

/-- Loop of calculateMaxDepth over the evolves_to array, carrying the running
maximum. -/
def maxDepthFold : List EvolutionChainLink → Nat → Nat → Nat
  | [], _, maxD => maxD
  | evolution :: rest, currentDepth, maxD =>
    maxDepthFold rest currentDepth (max maxD (calculateMaxDepth evolution (currentDepth + 1)))

end

mutual

/-- Depth-first search for the node whose species name matches
case-insensitively. -/
def findSpeciesNode : EvolutionChainLink → String → Option EvolutionChainLink
  | .mk s ds evolves_to, speciesName =>
    if toLowerStr s.name = toLowerStr speciesName then some (.mk s ds evolves_to)
    else findSpeciesNodeList evolves_to speciesName

/-- Loop of findSpeciesNode over the children, returning the first hit. -/
def findSpeciesNodeList : List EvolutionChainLink → String → Option EvolutionChainLink
  | [], _ => none
  | evolution :: rest, speciesName =>
    match findSpeciesNode evolution speciesName with
    | some found => some found
    | none => findSpeciesNodeList rest speciesName

end

/-- Immediate evolution edges of a node: target id extracted from the species
url (padded to three digits) or the raw name as fallback, and min_level /
trigger taken from the first detail entry when present. -/
def extractEvolutions (node : EvolutionChainLink) : List EvolutionDataOutput :=
  node.evolves_to.map (fun evolution =>
    let targetSpeciesId :=
      match matchSpeciesId evolution.species.url with
      | some digits => padStart3 digits
      | none => evolution.species.name
    let evolutionDetail := evolution.evolution_details.head?
    { target_species_id := targetSpeciesId
      min_level := match evolutionDetail with
        | some d => d.min_level
        | none => none
      trigger := match evolutionDetail with
        | some d =>
          match d.trigger with
          | some t => t.name
          | none => "unknown"
        | none => "unknown" })

/-- Memoising chain fetch.  The fetch oracle models one network request; the
returned Bool records whether a network fetch occurred on this call.  On a
cache miss with a successful fetch both the document and its computed maximum
depth are stored; a failed fetch stores nothing. -/
def getEvolutionChain (fetch : String → Option PokeApiEvolutionChain)
    (evolutionChainUrl : String) (st : CacheState) :
    Option PokeApiEvolutionChain × CacheState × Bool :=
  match mapGet st.dataCache evolutionChainUrl with
  | some cached => (some cached, st, false)
  | none =>
    match fetch evolutionChainUrl with
    | some evolutionChain =>
      let maxDepth := calculateMaxDepth evolutionChain.chain 1
      (some evolutionChain,
       ⟨mapSet st.dataCache evolutionChainUrl evolutionChain,
        mapSet st.depthCache evolutionChainUrl maxDepth⟩,
       true)
    | none => (none, st, true)

/-- Species resolver: on a successful species fetch pick the default variety,
else the first variety, else fall back to the input name; the fetched species
document is returned in every success case.  On a failed fetch return the
input name with no species document. -/
def resolveDefaultPokemonNameAndInfo (speciesFetch : String → Option PokeApiPokemonSpecies)
    (speciesName : String) : String × Option PokeApiPokemonSpecies :=
  match speciesFetch speciesName with
  | some species =>
    let defaultVariety := species.varieties.find? (fun v => v.is_default)
    let resolvedName :=
      match defaultVariety with
      | some v => v.pokemon.name
      | none =>
        match species.varieties with
        | v :: _ => v.pokemon.name
        | [] => speciesName
    (resolvedName, some species)
  | none => (speciesName, none)

/-- Slot comparator of pokemon.types.sort((a, b) => a.slot - b.slot), as the
stable-order relation it induces. -/
def slotLe (a b : PokeApiTypeSlot) : Bool := decide (a.slot ≤ b.slot)

/-- Evolution-information block of fetchPokemonData: guarded by the presence
of a truthy evolution_chain url, it consults the memoising chain cache and on
success computes starter candidacy and the node's outgoing evolutions;
every failure path yields false and an empty list. -/
def chainInfoFor (chainFetch : String → Option PokeApiEvolutionChain)
    (speciesInfo : Option PokeApiPokemonSpecies) (speciesName : String) (st : CacheState) :
    Bool × List EvolutionDataOutput × CacheState :=
  match speciesInfo with
  | some si =>
    match si.evolution_chain with
    | some url =>
      if url = "" then (false, [], st)
      else
        match getEvolutionChain chainFetch url st with
        | (some evolutionChain, st2, _) =>
          let maxDepth := calculateMaxDepth evolutionChain.chain 1
          let baseSpeciesName := toLowerStr evolutionChain.chain.species.name
          let isStarterCandidate :=
            decide (3 ≤ maxDepth) && (baseSpeciesName == toLowerStr speciesName)
          let evolutions :=
            match findSpeciesNode evolutionChain.chain speciesName with
            | some speciesNode => extractEvolutions speciesNode
            | none => []
          (isStarterCandidate, evolutions, st2)
        | (none, st2, _) => (false, [], st2)
    | none => (false, [], st)
  | none => (false, [], st)

/-- Model of fetchPokemonData.  The form fetch failing, or the types array
being empty (the types[0] access would throw, caught by the surrounding
try/catch), yields none with the caches untouched; otherwise the output
record is assembled and the caches updated by the chain lookup are
returned. -/
def fetchPokemonData (pokemonFetch : String → Option PokeApiPokemon)
    (chainFetch : String → Option PokeApiEvolutionChain)
    (pokemonName speciesName : String) (generation : Int)
    (speciesInfo : Option PokeApiPokemonSpecies) (st : CacheState) :
    Option PokemonSpeciesOutput × CacheState :=
  match pokemonFetch pokemonName with
  | none => (none, st)
  | some pokemon =>
    match stableSort slotLe pokemon.types with
    | [] => (none, st)
    | t0 :: trest =>
      let primaryType := mapType t0.type.name
      let secondaryType :=
        match trest with
        | t1 :: _ => some (mapType t1.type.name)
        | [] => none
      let baseStats := mapStats pokemon.stats
      let movePool := extractLevelUpMoves pokemon.moves
      let (isStarterCandidate, evolutions, st') := chainInfoFor chainFetch speciesInfo speciesName st
      (some { species_id := padStart3 (toString pokemon.id)
              display_name := capitalize speciesName
              generation := generation
              primary_type := primaryType
              secondary_type := secondaryType
              base_stats := baseStats
              move_pool := movePool
              is_starter_candidate := isStarterCandidate
              evolutions := evolutions }, st')

/-- Accumulated state of the per-species loop of main: the records pushed so
far, the two counters and the chain caches. -/
structure LoopState where
  records : List PokemonSpeciesOutput
  successCount : Nat
  errorCount : Nat
  cache : CacheState

/-- One iteration of the per-species loop: resolve the canonical name, fetch
the form data, then either push the record and bump successCount or bump
errorCount. -/
def processSpeciesStep (speciesFetch : String → Option PokeApiPokemonSpecies)
    (pokemonFetch : String → Option PokeApiPokemon)
    (chainFetch : String → Option PokeApiEvolutionChain)
    (gen : Int) (acc : LoopState) (speciesName : String) : LoopState :=
  let (resolvedName, speciesInfo) := resolveDefaultPokemonNameAndInfo speciesFetch speciesName
  let (pokemonData, st') :=
    fetchPokemonData pokemonFetch chainFetch resolvedName speciesName gen speciesInfo acc.cache
  match pokemonData with
  | some d =>
    { records := acc.records ++ [d], successCount := acc.successCount + 1,
      errorCount := acc.errorCount, cache := st' }
  | none =>
    { records := acc.records, successCount := acc.successCount,
      errorCount := acc.errorCount + 1, cache := st' }

/-- Per-generation loop of main over the roster of species names. -/
def processGeneration (speciesFetch : String → Option PokeApiPokemonSpecies)
    (pokemonFetch : String → Option PokeApiPokemon)
    (chainFetch : String → Option PokeApiEvolutionChain)
    (gen : Int) (speciesList : List String) (st : CacheState) : LoopState :=
  speciesList.foldl (processSpeciesStep speciesFetch pokemonFetch chainFetch gen)
    ⟨[], 0, 0, st⟩

/-- Numeric key of the persisted-dataset sort comparator
(a, b) => parseInt(a.species_id) - parseInt(b.species_id): when either side
parses to NaN every comparison yields 0, so the stable sort treats the pair
as equal. -/
def cmpLe (a b : PokemonSpeciesOutput) : Bool :=
  match parseIntJS a.species_id, parseIntJS b.species_id with
  | some x, some y => decide (x ≤ y)
  | _, _ => true

/-- Sort of the dataset ascending by parseInt of species_id. -/
def sortBySpeciesId (l : List PokemonSpeciesOutput) : List PokemonSpeciesOutput :=
  stableSort cmpLe l

/-- Single-generation merge branch of main: drop every existing record of the
target generation, append the run's records, and sort by numeric
species_id. -/
def mergeSingleGen (existingSpecies allSpecies : List PokemonSpeciesOutput) (gen : Int) :
    List PokemonSpeciesOutput :=
  let filtered := existingSpecies.filter (fun s => s.generation != gen)
  sortBySpeciesId (filtered ++ allSpecies)

/-- Replay of a sequence of getEvolutionChain requests through the caches,
recording for each request the url, the returned value, and whether a network
fetch occurred. -/
def runChainRequests (fetch : String → Option PokeApiEvolutionChain) :
    List String → CacheState → List (String × Option PokeApiEvolutionChain × Bool) × CacheState
  | [], st => ([], st)
  | url :: rest, st =>
    match getEvolutionChain fetch url st with
    | (res, st', fetched) =>
      let (trace, stF) := runChainRequests fetch rest st'
      ((url, res, fetched) :: trace, stF)

mutual

/-- Compositional depth of an evolution tree, written from the specification:
the depth of a leaf is 1 and the depth of an internal node is 1 plus the
maximum of its children's depths. -/
def treeDepth : EvolutionChainLink → Nat
  | .mk _ _ children => 1 + treeDepthListMax children

/-- Maximum of treeDepth over a list of children (0 for no children). -/
def treeDepthListMax : List EvolutionChainLink → Nat
  | [] => 0
  | c :: rest => max (treeDepth c) (treeDepthListMax rest)

end

/-- Linear three-node chain a to b to c used as a concrete example. -/
def chainLinear3 : EvolutionChainLink :=
  .mk ⟨"a", ""⟩ [] [.mk ⟨"b", ""⟩ [] [.mk ⟨"c", ""⟩ [] []]]

/-- Branching chain a to b and a to c used as a concrete example. -/
def chainBranching : EvolutionChainLink :=
  .mk ⟨"a", ""⟩ [] [.mk ⟨"b", ""⟩ [] [], .mk ⟨"c", ""⟩ [] []]

/-- Concrete three-stage chain rooted at bulbasaur. -/
def bulbaChain : EvolutionChainLink :=
  .mk ⟨"bulbasaur", "https://pokeapi.co/api/v2/pokemon-species/1/"⟩ []
    [.mk ⟨"ivysaur", "https://pokeapi.co/api/v2/pokemon-species/2/"⟩
      [⟨some 16, some ⟨"level-up", ""⟩⟩]
      [.mk ⟨"venusaur", "https://pokeapi.co/api/v2/pokemon-species/3/"⟩
        [⟨some 32, some ⟨"level-up", ""⟩⟩] []]]

/-- Chain document wrapping bulbaChain. -/
def bulbaDoc : PokeApiEvolutionChain := ⟨1, bulbaChain⟩

/-- Locator of bulbaDoc. -/
def chainUrl1 : String := "https://pokeapi.co/api/v2/evolution-chain/1/"

/-- Chain oracle knowing only bulbaDoc. -/
def cfBulba : String → Option PokeApiEvolutionChain :=
  fun u => if u = chainUrl1 then some bulbaDoc else none

/-- Chain oracle for which every fetch fails. -/
def cfNone : String → Option PokeApiEvolutionChain := fun _ => none

/-- Species document for bulbasaur with one default variety. -/
def bulbaSpecies : PokeApiPokemonSpecies :=
  ⟨1, "bulbasaur", some chainUrl1, [⟨true, ⟨"bulbasaur", "purl"⟩⟩]⟩

/-- Species oracle knowing only bulbasaur. -/
def sfBulba : String → Option PokeApiPokemonSpecies :=
  fun n => if n = "bulbasaur" then some bulbaSpecies else none

/-- Form document for bulbasaur with a single grass type slot. -/
def bulbaPokemon : PokeApiPokemon := ⟨1, "bulbasaur", [⟨1, ⟨"grass", ""⟩⟩], [], []⟩

/-- Form oracle knowing only bulbasaur. -/
def pfBulba : String → Option PokeApiPokemon :=
  fun n => if n = "bulbasaur" then some bulbaPokemon else none

/-- Record that fetchPokemonData produces for bulbasaur against cfBulba. -/
def bulbaRecord : PokemonSpeciesOutput :=
  { species_id := "001", display_name := "Bulbasaur", generation := 1,
    primary_type := "Grass", secondary_type := none,
    base_stats := ⟨0, 0, 0, 0, 0, 0⟩, move_pool := [],
    is_starter_candidate := true,
    evolutions := [⟨"002", some 16, "level-up"⟩] }

/-- Cache state after the single fetch of bulbaDoc. -/
def bulbaCacheAfter : CacheState := ⟨[(chainUrl1, bulbaDoc)], [(chainUrl1, 3)]⟩

/-- Species document with an empty varieties list and a present chain
reference, exercising the resolver's empty-varieties branch. -/
def mewSpecies : PokeApiPokemonSpecies :=
  ⟨151, "mew", some "https://pokeapi.co/api/v2/evolution-chain/75/", []⟩

/-- Species oracle knowing only mewSpecies. -/
def sfMew : String → Option PokeApiPokemonSpecies :=
  fun n => if n = "mew" then some mewSpecies else none

/-- Existing generation-1 record used in merge examples. -/
def recGen1 : PokemonSpeciesOutput :=
  ⟨"001", "A", 1, "Grass", none, ⟨0, 0, 0, 0, 0, 0⟩, [], false, []⟩

/-- Existing generation-2 record used in merge examples. -/
def recGen2 : PokemonSpeciesOutput :=
  ⟨"004", "B", 2, "Fire", none, ⟨0, 0, 0, 0, 0, 0⟩, [], false, []⟩

/-- Freshly fetched generation-2 record used in merge examples. -/
def recNew2 : PokemonSpeciesOutput :=
  ⟨"002", "C", 2, "Water", none, ⟨0, 0, 0, 0, 0, 0⟩, [], false, []⟩

/-- Move learned by level-up, for the move-pool examples. -/
def mvTackle : PokeApiMove := ⟨⟨"tackle", ""⟩, [⟨1, ⟨"level-up", ""⟩, ⟨"red-blue", ""⟩⟩]⟩

/-- Move with one machine detail and one level-up detail. -/
def mvGrowl : PokeApiMove :=
  ⟨⟨"growl", ""⟩, [⟨0, ⟨"machine", ""⟩, ⟨"red-blue", ""⟩⟩, ⟨3, ⟨"level-up", ""⟩, ⟨"red-blue", ""⟩⟩]⟩

/-- Move never learned by level-up. -/
def mvCut : PokeApiMove := ⟨⟨"cut", ""⟩, [⟨0, ⟨"machine", ""⟩, ⟨"red-blue", ""⟩⟩]⟩

/-- Numeric value of a record's species_id when it parses (0 stands in for
NaN; the theorems about sorting only use it under the hypothesis that every
id parses). -/
def numVal (r : PokemonSpeciesOutput) : Int :=
  (parseIntJS r.species_id).getD 0

/-- Total order on records by numeric species_id value. -/
def leNum (a b : PokemonSpeciesOutput) : Bool :=
  decide (numVal a ≤ numVal b)

/-- Structural induction principle for the nested chain type: to prove P of a
node it suffices to assume P of every child. -/
theorem chainInduction (P : EvolutionChainLink → Prop)
    (h : ∀ s ds l, (∀ c ∈ l, P c) → P (.mk s ds l)) (c : EvolutionChainLink) : P c :=
  @EvolutionChainLink.rec P (fun l => ∀ x ∈ l, P x)
    (fun s ds l ih => h s ds l ih)
    (fun x hx => absurd hx (List.not_mem_nil x))
    (fun _ _ ihh iht x hx => by
      cases hx with
      | head => exact ihh
      | tail _ h2 => exact iht _ h2)
    c

/-- Looking up the key just set returns the value just set. -/
theorem mapGet_mapSet_same (m : List (String × α)) (k : String) (v : α) :
    mapGet (mapSet m k v) k = some v := by
  simp [mapGet, mapSet]

/-- Setting one key leaves every other key's lookup unchanged. -/
theorem mapGet_mapSet_other (m : List (String × α)) (k k' : String) (v : α) (h : k ≠ k') :
    mapGet (mapSet m k v) k' = mapGet m k' := by
  simp [mapGet, mapSet, h]

/-- Membership in a stable insertion. -/
theorem mem_insertSorted (le : α → α → Bool) (x a : α) (l : List α) :
    a ∈ insertSorted le x l ↔ a = x ∨ a ∈ l := by
  induction l with
  | nil => simp [insertSorted]
  | cons y ys ih =>
    simp only [insertSorted]
    split
    · simp [List.mem_cons]
    · simp only [List.mem_cons, ih]
      tauto

/-- Stable insertion permutes consing. -/
theorem insertSorted_perm (le : α → α → Bool) (x : α) (l : List α) :
    (insertSorted le x l).Perm (x :: l) := by
  induction l with
  | nil => exact List.Perm.refl _
  | cons y ys ih =>
    simp only [insertSorted]
    split
    · exact List.Perm.refl _
    · exact List.Perm.trans (List.Perm.cons y ih) (List.Perm.swap x y ys)

/-- The stable sort is a permutation of its input. -/
theorem stableSort_perm (le : α → α → Bool) (l : List α) : (stableSort le l).Perm l := by
  induction l with
  | nil => exact List.Perm.refl _
  | cons x xs ih =>
    exact List.Perm.trans (insertSorted_perm le x (stableSort le xs)) (List.Perm.cons x ih)

/-- Membership is preserved by the stable sort. -/
theorem mem_stableSort (le : α → α → Bool) (a : α) (l : List α) :
    a ∈ stableSort le l ↔ a ∈ l :=
  (stableSort_perm le l).mem_iff

/-- Inserting into a le-sorted list keeps it le-sorted, for a total transitive
le. -/
theorem insertSorted_sorted (le : α → α → Bool)
    (htot : ∀ a b, le a b = true ∨ le b a = true)
    (htrans : ∀ a b c, le a b = true → le b c = true → le a c = true)
    (x : α) (l : List α) (hl : l.Pairwise (fun a b => le a b = true)) :
    (insertSorted le x l).Pairwise (fun a b => le a b = true) := by
  induction l with
  | nil => simp [insertSorted]
  | cons y ys ih =>
    rw [List.pairwise_cons] at hl
    simp only [insertSorted]
    split
    · rename_i hxy
      rw [List.pairwise_cons]
      refine ⟨?_, List.pairwise_cons.mpr hl⟩
      intro z hz
      rcases List.mem_cons.mp hz with rfl | hz'
      · exact hxy
      · exact htrans x y z hxy (hl.1 z hz')
    · rename_i hxy
      rw [List.pairwise_cons]
      refine ⟨?_, ih hl.2⟩
      intro z hz
      rcases (mem_insertSorted le x z ys).mp hz with rfl | hz'
      · rcases htot z y with h | h
        · exact absurd h hxy
        · exact h
      · exact hl.1 z hz'

/-- The stable sort output is le-sorted, for a total transitive le. -/
theorem stableSort_sorted (le : α → α → Bool)
    (htot : ∀ a b, le a b = true ∨ le b a = true)
    (htrans : ∀ a b c, le a b = true → le b c = true → le a c = true)
    (l : List α) : (stableSort le l).Pairwise (fun a b => le a b = true) := by
  induction l with
  | nil => simp [stableSort]
  | cons x xs ih => exact insertSorted_sorted le htot htrans x _ ih

/-- Insertion only consults le between the inserted element and list
members. -/
theorem insertSorted_congr (le₁ le₂ : α → α → Bool) (x : α) (l : List α)
    (h : ∀ y ∈ l, le₁ x y = le₂ x y) : insertSorted le₁ x l = insertSorted le₂ x l := by
  induction l with
  | nil => rfl
  | cons y ys ih =>
    simp only [insertSorted]
    rw [h y (List.mem_cons_self y ys)]
    split
    · rfl
    · rw [ih (fun z hz => h z (List.mem_cons_of_mem y hz))]

/-- The stable sort only consults le between members of the list. -/
theorem stableSort_congr (le₁ le₂ : α → α → Bool) (l : List α)
    (h : ∀ a ∈ l, ∀ b ∈ l, le₁ a b = le₂ a b) : stableSort le₁ l = stableSort le₂ l := by
  induction l with
  | nil => rfl
  | cons x xs ih =>
    simp only [stableSort]
    rw [ih (fun a ha b hb => h a (List.mem_cons_of_mem x ha) b (List.mem_cons_of_mem x hb))]
    exact insertSorted_congr le₁ le₂ x _ (fun y hy =>
      h x (List.mem_cons_self x xs) y
        (List.mem_cons_of_mem x ((mem_stableSort le₂ y xs).mp hy)))

/-- Inserting below everything is just consing. -/
theorem insertSorted_eq_cons (le : α → α → Bool) (x : α) (l : List α)
    (h : ∀ z ∈ l, le x z = true) : insertSorted le x l = x :: l := by
  cases l with
  | nil => rfl
  | cons z zs =>
    simp only [insertSorted]
    rw [h z (List.mem_cons_self z zs)]
    simp

/-- Filtering commutes with inserting into a sorted list, for a transitive
le. -/
theorem filter_insertSorted (le : α → α → Bool) (p : α → Bool)
    (htrans : ∀ a b c, le a b = true → le b c = true → le a c = true)
    (x : α) (l : List α) (hl : l.Pairwise (fun a b => le a b = true)) :
    (insertSorted le x l).filter p =
      if p x then insertSorted le x (l.filter p) else l.filter p := by
  induction l with
  | nil => cases hp : p x <;> simp [insertSorted, List.filter, hp]
  | cons y ys ih =>
    rw [List.pairwise_cons] at hl
    cases hxy : le x y with
    | true =>
      have h1 : insertSorted le x (y :: ys) = x :: y :: ys := by
        simp [insertSorted, hxy]
      rw [h1]
      cases hp : p x with
      | true =>
        cases hpy : p y with
        | true =>
          have hall : ∀ z ∈ y :: List.filter p ys, le x z = true := by
            intro z hz
            rcases List.mem_cons.mp hz with rfl | hz'
            · exact hxy
            · exact htrans x y z hxy (hl.1 z (List.mem_of_mem_filter hz'))
          simp [List.filter_cons, hp, hpy, insertSorted_eq_cons le x _ hall]
        | false =>
          have hall : ∀ z ∈ List.filter p ys, le x z = true := by
            intro z hz
            exact htrans x y z hxy (hl.1 z (List.mem_of_mem_filter hz))
          simp [List.filter_cons, hp, hpy, insertSorted_eq_cons le x _ hall]
      | false =>
        simp [List.filter_cons, hp]
    | false =>
      have h1 : insertSorted le x (y :: ys) = y :: insertSorted le x ys := by
        simp [insertSorted, hxy]
      rw [h1]
      cases hp : p x with
      | true =>
        cases hpy : p y with
        | true =>
          have h2 : insertSorted le x (y :: List.filter p ys) =
              y :: insertSorted le x (List.filter p ys) := by
            simp [insertSorted, hxy]
          simp [List.filter_cons, hp, hpy, ih hl.2, h2]
        | false =>
          simp [List.filter_cons, hp, hpy, ih hl.2]
      | false =>
        cases hpy : p y with
        | true => simp [List.filter_cons, hp, hpy, ih hl.2]
        | false => simp [List.filter_cons, hp, hpy, ih hl.2]

/-- Filtering commutes with the stable sort, for a total transitive le. -/
theorem filter_stableSort (le : α → α → Bool) (p : α → Bool)
    (htot : ∀ a b, le a b = true ∨ le b a = true)
    (htrans : ∀ a b c, le a b = true → le b c = true → le a c = true)
    (l : List α) : (stableSort le l).filter p = stableSort le (l.filter p) := by
  induction l with
  | nil => rfl
  | cons x xs ih =>
    simp only [stableSort]
    rw [filter_insertSorted le p htrans x _ (stableSort_sorted le htot htrans xs)]
    cases hp : p x with
    | true => simp [List.filter_cons, hp, stableSort, ih]
    | false => simp [List.filter_cons, hp, ih]

/-- Two insertions with strictly ordered keys commute, for a total transitive
le. -/
theorem insertSorted_comm (le : α → α → Bool)
    (htot : ∀ a b, le a b = true ∨ le b a = true)
    (htrans : ∀ a b c, le a b = true → le b c = true → le a c = true)
    (x y : α) (hxy : le x y = false) (T : List α) :
    insertSorted le y (insertSorted le x T) = insertSorted le x (insertSorted le y T) := by
  have hyx : le y x = true := by
    rcases htot x y with h | h
    · exact absurd h (by simp [hxy])
    · exact h
  induction T with
  | nil =>
    simp [insertSorted, hxy, hyx]
  | cons z T' ih =>
    cases hxz : le x z with
    | true =>
      have hyz : le y z = true := htrans y x z hyx hxz
      simp [insertSorted, hxz, hyz, hxy, hyx]
    | false =>
      cases hyz : le y z with
      | true =>
        simp [insertSorted, hxz, hyz, hxy]
      | false =>
        simp [insertSorted, hxz, hyz, ih]

/-- Pulling one insertion out of the insertion fold, when the list inserted
into is sorted. -/
theorem foldr_insertSorted_insert (le : α → α → Bool)
    (htot : ∀ a b, le a b = true ∨ le b a = true)
    (htrans : ∀ a b c, le a b = true → le b c = true → le a c = true)
    (x : α) (L S : List α) (hL : L.Pairwise (fun a b => le a b = true)) :
    (insertSorted le x L).foldr (insertSorted le) S =
      insertSorted le x (L.foldr (insertSorted le) S) := by
  induction L with
  | nil => rfl
  | cons y L' ih =>
    rw [List.pairwise_cons] at hL
    cases hxy : le x y with
    | true => simp [insertSorted, hxy]
    | false =>
      have h1 : insertSorted le x (y :: L') = y :: insertSorted le x L' := by
        simp [insertSorted, hxy]
      rw [h1]
      simp only [List.foldr_cons]
      rw [ih hL.2]
      exact insertSorted_comm le htot htrans x y hxy _

/-- The stable sort of an appended list is the fold of insertions into the
sorted tail. -/
theorem stableSort_append (le : α → α → Bool) (A B : List α) :
    stableSort le (A ++ B) = A.foldr (insertSorted le) (stableSort le B) := by
  induction A with
  | nil => rfl
  | cons x A' ih =>
    simp only [List.cons_append, stableSort, List.foldr_cons]
    rw [← ih]
    rfl

/-- Folding insertions of the sorted version of a list gives the same result
as folding the list itself. -/
theorem foldr_insertSorted_stableSort (le : α → α → Bool)
    (htot : ∀ a b, le a b = true ∨ le b a = true)
    (htrans : ∀ a b c, le a b = true → le b c = true → le a c = true)
    (A S : List α) :
    (stableSort le A).foldr (insertSorted le) S = A.foldr (insertSorted le) S := by
  induction A with
  | nil => rfl
  | cons x A' ih =>
    simp only [stableSort, List.foldr_cons]
    rw [foldr_insertSorted_insert le htot htrans x _ S (stableSort_sorted le htot htrans A'), ih]

/-- Resorting a sorted prefix is invisible to the stable sort of an appended
list. -/
theorem stableSort_stableSort_append (le : α → α → Bool)
    (htot : ∀ a b, le a b = true ∨ le b a = true)
    (htrans : ∀ a b c, le a b = true → le b c = true → le a c = true)
    (A B : List α) :
    stableSort le (stableSort le A ++ B) = stableSort le (A ++ B) := by
  rw [stableSort_append, stableSort_append]
  exact foldr_insertSorted_stableSort le htot htrans A (stableSort le B)

/-- Totality of the numeric-id order. -/
theorem leNum_total : ∀ a b : PokemonSpeciesOutput, leNum a b = true ∨ leNum b a = true := by
  intro a b
  simp only [leNum, decide_eq_true_eq]
  omega

/-- Transitivity of the numeric-id order. -/
theorem leNum_trans : ∀ a b c : PokemonSpeciesOutput,
    leNum a b = true → leNum b c = true → leNum a c = true := by
  intro a b c
  simp only [leNum, decide_eq_true_eq]
  omega

/-- On records whose species_id parses, the dataset comparator agrees with the
total numeric-id order. -/
theorem cmpLe_eq_leNum (a b : PokemonSpeciesOutput)
    (ha : (parseIntJS a.species_id).isSome = true)
    (hb : (parseIntJS b.species_id).isSome = true) : cmpLe a b = leNum a b := by
  obtain ⟨x, hx⟩ := Option.isSome_iff_exists.mp ha
  obtain ⟨y, hy⟩ := Option.isSome_iff_exists.mp hb
  simp [cmpLe, leNum, numVal, hx, hy]

/-- Records of the untargeted generations all survive the generation filter
of newRecords built from one generation. -/
theorem filter_newRecords_eq_nil (N : List PokemonSpeciesOutput) (G : Int)
    (hN : ∀ r ∈ N, r.generation = G) :
    N.filter (fun s => s.generation != G) = [] := by
  rw [List.filter_eq_nil_iff]
  intro r hr
  simp [hN r hr]

/-- Filtering twice by the generation predicate is filtering once. -/
theorem filter_gen_idem (D : List PokemonSpeciesOutput) (G : Int) :
    (D.filter (fun s => s.generation != G)).filter (fun s => s.generation != G) =
      D.filter (fun s => s.generation != G) := by
  rw [List.filter_filter]
  apply List.filter_congr
  intro a _
  simp [Bool.and_self]

/-- C3.  Single-generation merge is idempotent: with every new record carrying
the target generation and every species_id numeric, merging the same
newRecords for generation G twice in sequence equals merging once, so no
duplicate records accumulate. -/
theorem c3_merge_idempotent (D N : List PokemonSpeciesOutput) (G : Int)
    (hN : ∀ r ∈ N, r.generation = G)
    (hnumD : ∀ r ∈ D, (parseIntJS r.species_id).isSome = true)
    (hnumN : ∀ r ∈ N, (parseIntJS r.species_id).isSome = true) :
    mergeSingleGen (mergeSingleGen D N G) N G = mergeSingleGen D N G := by
  have hmem1 : ∀ r ∈ D.filter (fun s => s.generation != G) ++ N,
      (parseIntJS r.species_id).isSome = true := by
    intro r hr
    rcases List.mem_append.mp hr with h | h
    · exact hnumD r (List.mem_of_mem_filter h)
    · exact hnumN r h
  have hcong1 : stableSort cmpLe (D.filter (fun s => s.generation != G) ++ N) =
      stableSort leNum (D.filter (fun s => s.generation != G) ++ N) :=
    stableSort_congr _ _ _ (fun a ha b hb => cmpLe_eq_leNum a b (hmem1 a ha) (hmem1 b hb))
  have hmemM : ∀ r ∈ (stableSort cmpLe
        (D.filter (fun s => s.generation != G) ++ N)).filter (fun s => s.generation != G) ++ N,
      (parseIntJS r.species_id).isSome = true := by
    intro r hr
    rcases List.mem_append.mp hr with h | h
    · exact hmem1 r ((mem_stableSort _ _ _).mp (List.mem_of_mem_filter h))
    · exact hnumN r h
  show stableSort cmpLe ((stableSort cmpLe
      (D.filter (fun s => s.generation != G) ++ N)).filter (fun s => s.generation != G) ++ N) =
    stableSort cmpLe (D.filter (fun s => s.generation != G) ++ N)
  rw [stableSort_congr cmpLe leNum ((stableSort cmpLe
      (D.filter (fun s => s.generation != G) ++ N)).filter (fun s => s.generation != G) ++ N)
    (fun a ha b hb => cmpLe_eq_leNum a b (hmemM a ha) (hmemM b hb)), hcong1,
    filter_stableSort leNum _ leNum_total leNum_trans, List.filter_append,
    filter_gen_idem, filter_newRecords_eq_nil N G hN, List.append_nil,
    stableSort_stableSort_append leNum leNum_total leNum_trans]

/-- C4.  Single-generation merge isolation: when every new record carries the
target generation, the multiset of records of other generations is exactly
preserved by the merge — each such record appears unchanged and none is added
or removed. -/
theorem c4_merge_isolation (D N : List PokemonSpeciesOutput) (G : Int)
    (hN : ∀ r ∈ N, r.generation = G) :
    ((mergeSingleGen D N G).filter (fun s => s.generation != G)).Perm
      (D.filter (fun s => s.generation != G)) := by
  have h1 : ((mergeSingleGen D N G).filter (fun s => s.generation != G)).Perm
      (((D.filter (fun s => s.generation != G)) ++ N).filter (fun s => s.generation != G)) :=
    List.Perm.filter _ (stableSort_perm cmpLe _)
  refine h1.trans ?_
  rw [List.filter_append, filter_gen_idem, filter_newRecords_eq_nil N G hN, List.append_nil]

/-- C8.  Persisted output ordering: when every species_id parses, both the
full-run sort and the single-generation merged output are sorted ascending by
the numeric value of species_id. -/
theorem c8_output_sorted (D N : List PokemonSpeciesOutput) (G : Int)
    (hnumD : ∀ r ∈ D, (parseIntJS r.species_id).isSome = true)
    (hnumN : ∀ r ∈ N, (parseIntJS r.species_id).isSome = true) :
    (sortBySpeciesId N).Pairwise (fun a b => numVal a ≤ numVal b) ∧
      (mergeSingleGen D N G).Pairwise (fun a b => numVal a ≤ numVal b) := by
  constructor
  · unfold sortBySpeciesId
    rw [stableSort_congr cmpLe leNum N
      (fun a ha b hb => cmpLe_eq_leNum a b (hnumN a ha) (hnumN b hb))]
    exact (stableSort_sorted leNum leNum_total leNum_trans N).imp
      (fun h => by simpa [leNum] using h)
  · have hmem1 : ∀ r ∈ D.filter (fun s => s.generation != G) ++ N,
        (parseIntJS r.species_id).isSome = true := by
      intro r hr
      rcases List.mem_append.mp hr with h | h
      · exact hnumD r (List.mem_of_mem_filter h)
      · exact hnumN r h
    show (sortBySpeciesId _).Pairwise _
    unfold sortBySpeciesId
    rw [stableSort_congr cmpLe leNum _
      (fun a ha b hb => cmpLe_eq_leNum a b (hmem1 a ha) (hmem1 b hb))]
    exact (stableSort_sorted leNum leNum_total leNum_trans _).imp
      (fun h => by simpa [leNum] using h)

/-- Witness for C3 at a concrete dataset: one generation-1 and one
generation-2 record merged with a fresh generation-2 record. -/
theorem c3_merge_idempotent_witness :
    mergeSingleGen (mergeSingleGen [recGen1, recGen2] [recNew2] 2) [recNew2] 2 =
      mergeSingleGen [recGen1, recGen2] [recNew2] 2 :=
  c3_merge_idempotent [recGen1, recGen2] [recNew2] 2 (by decide) (by decide) (by decide)

/-- Witness for C4 at a concrete dataset. -/
theorem c4_merge_isolation_witness :
    ((mergeSingleGen [recGen1, recGen2] [recNew2] 2).filter (fun s => s.generation != 2)).Perm
      ([recGen1, recGen2].filter (fun s => s.generation != 2)) :=
  c4_merge_isolation [recGen1, recGen2] [recNew2] 2 (by decide)

/-- Witness for C8 at a concrete dataset. -/
theorem c8_output_sorted_witness :
    (sortBySpeciesId [recNew2]).Pairwise (fun a b => numVal a ≤ numVal b) ∧
      (mergeSingleGen [recGen1, recGen2] [recNew2] 2).Pairwise
        (fun a b => numVal a ≤ numVal b) :=
  c8_output_sorted [recGen1, recGen2] [recNew2] 2 (by decide) (by decide)

/-- Every tree has depth at least one. -/
theorem treeDepth_pos (c : EvolutionChainLink) : 1 ≤ treeDepth c := by
  cases c with
  | mk s ds l =>
    show 1 ≤ 1 + treeDepthListMax l
    omega

/-- Value of the depth loop on a nonempty child list, assuming the
compositional characterisation of the recursive calls. -/
theorem maxDepthFold_eq (e : EvolutionChainLink) (rest : List EvolutionChainLink)
    (cd acc : Nat)
    (hIH : ∀ x ∈ e :: rest, ∀ d, calculateMaxDepth x (d + 1) = d + treeDepth x) :
    maxDepthFold (e :: rest) cd acc = max acc (cd + treeDepthListMax (e :: rest)) := by
  induction rest generalizing e acc with
  | nil =>
    show maxDepthFold [] cd (max acc (calculateMaxDepth e (cd + 1))) = _
    rw [hIH e (List.mem_cons_self e []) cd]
    show max acc (cd + treeDepth e) = max acc (cd + max (treeDepth e) (treeDepthListMax []))
    show _ = max acc (cd + max (treeDepth e) 0)
    omega
  | cons r' rest' ih =>
    show maxDepthFold (r' :: rest') cd (max acc (calculateMaxDepth e (cd + 1))) = _
    rw [hIH e (List.mem_cons_self e _) cd]
    rw [ih r' (max acc (cd + treeDepth e)) (fun x hx => hIH x (by
      rcases List.mem_cons.mp hx with rfl | hx'
      · exact List.mem_cons_of_mem e (List.mem_cons_self x rest')
      · exact List.mem_cons_of_mem e (List.mem_cons_of_mem r' hx')))]
    show max (max acc (cd + treeDepth e)) (cd + treeDepthListMax (r' :: rest')) =
      max acc (cd + max (treeDepth e) (treeDepthListMax (r' :: rest')))
    omega

/-- Offset form of the depth computation: starting the recursion at depth
d + 1 adds d to the compositional tree depth. -/
theorem calculateMaxDepth_eq_treeDepth (c : EvolutionChainLink) :
    ∀ d, calculateMaxDepth c (d + 1) = d + treeDepth c := by
  induction c using chainInduction with
  | h s ds l hchildren =>
    intro d
    cases l with
    | nil =>
      show calculateMaxDepth (.mk s ds []) (d + 1) = d + (1 + treeDepthListMax [])
      show (if ([] : List EvolutionChainLink).isEmpty then d + 1
        else maxDepthFold [] (d + 1) (d + 1)) = d + (1 + treeDepthListMax [])
      simp [treeDepthListMax]
    | cons e rest =>
      show calculateMaxDepth (.mk s ds (e :: rest)) (d + 1) = d + (1 + treeDepthListMax (e :: rest))
      show (if (e :: rest).isEmpty then d + 1 else maxDepthFold (e :: rest) (d + 1) (d + 1)) = _
      rw [if_neg (by simp)]
      rw [maxDepthFold_eq e rest (d + 1) (d + 1) (fun x hx => hchildren x hx)]
      have h1 : 1 ≤ treeDepth e := treeDepth_pos e
      have h2 : treeDepth e ≤ max (treeDepth e) (treeDepthListMax rest) := Nat.le_max_left _ _
      omega

/-- C5.  calculateMaxDepth started at 1 computes the compositional maximum
depth of the tree (leaf depth 1, internal node depth 1 plus the maximum of
its children's depths, maximum over branches rather than sum); in particular
the linear three-node chain has depth 3 and the two-way branching chain has
depth 2. -/
theorem c5_calculateMaxDepth_correct (c : EvolutionChainLink) :
    calculateMaxDepth c 1 = treeDepth c ∧
      calculateMaxDepth chainLinear3 1 = 3 ∧ calculateMaxDepth chainBranching 1 = 2 := by
  refine ⟨?_, by decide, by decide⟩
  have h := calculateMaxDepth_eq_treeDepth c 0
  simpa using h

/-- Unfolding equation for one step of the request replay. -/
theorem runChainRequests_cons (fetch : String → Option PokeApiEvolutionChain)
    (u : String) (rest : List String) (st : CacheState) :
    runChainRequests fetch (u :: rest) st =
      ((u, (getEvolutionChain fetch u st).1, (getEvolutionChain fetch u st).2.2) ::
        (runChainRequests fetch rest (getEvolutionChain fetch u st).2.1).1,
       (runChainRequests fetch rest (getEvolutionChain fetch u st).2.1).2) :=
  rfl

/-- Processing one url leaves the cache entries of every other url
untouched. -/
theorem getEvolutionChain_preserves (fetch : String → Option PokeApiEvolutionChain)
    (u url : String) (st : CacheState) (h : u ≠ url) :
    mapGet ((getEvolutionChain fetch u st).2.1).dataCache url = mapGet st.dataCache url ∧
    mapGet ((getEvolutionChain fetch u st).2.1).depthCache url = mapGet st.depthCache url := by
  unfold getEvolutionChain
  cases hm : mapGet st.dataCache u with
  | some c => exact ⟨rfl, rfl⟩
  | none =>
    cases hf : fetch u with
    | some ec =>
      exact ⟨mapGet_mapSet_other _ u url _ h, mapGet_mapSet_other _ u url _ h⟩
    | none => exact ⟨rfl, rfl⟩

/-- Once both caches hold an entry for a url, every later request for it
returns the stored document without a network fetch, and the entries
survive. -/
theorem runChainRequests_hit (fetch : String → Option PokeApiEvolutionChain)
    (t : PokeApiEvolutionChain) (dep : Nat) (url : String) :
    ∀ (reqs : List String) (st : CacheState),
      mapGet st.dataCache url = some t → mapGet st.depthCache url = some dep →
      (((runChainRequests fetch reqs st).1.filter (fun e => e.1 == url)).map (fun e => e.2) =
        List.replicate (reqs.count url) (some t, false)) ∧
      mapGet ((runChainRequests fetch reqs st).2).dataCache url = some t ∧
      mapGet ((runChainRequests fetch reqs st).2).depthCache url = some dep := by
  intro reqs
  induction reqs with
  | nil =>
    intro st h1 h2
    exact ⟨by simp [runChainRequests], h1, h2⟩
  | cons u rest ih =>
    intro st h1 h2
    rw [runChainRequests_cons]
    by_cases hu : u = url
    · subst hu
      have hg : getEvolutionChain fetch u st = (some t, st, false) := by
        unfold getEvolutionChain
        rw [h1]
      rw [hg]
      have hrec := ih st h1 h2
      refine ⟨?_, hrec.2.1, hrec.2.2⟩
      simp only [List.filter_cons, List.count_cons]
      rw [if_pos (by simp)]
      simp only [List.map_cons, hrec.1]
      have : rest.count u + 1 = (rest.count u) + 1 := rfl
      simp [List.replicate_succ, List.count_cons]
    · have hpres := getEvolutionChain_preserves fetch u url st hu
      have hrec := ih (getEvolutionChain fetch u st).2.1 (hpres.1.trans h1) (hpres.2.trans h2)
      refine ⟨?_, hrec.2.1, hrec.2.2⟩
      simp only [List.filter_cons, List.count_cons]
      rw [if_neg (by simp [hu])]
      rw [hrec.1]
      simp [hu]

/-- First request for an uncached url with a succeeding fetch: the fetch
happens, both caches are filled, and every later request is a cache hit. -/
theorem runChainRequests_miss (fetch : String → Option PokeApiEvolutionChain)
    (t : PokeApiEvolutionChain) (url : String) :
    ∀ (reqs : List String) (st : CacheState),
      mapGet st.dataCache url = none → fetch url = some t →
      (((runChainRequests fetch reqs st).1.filter (fun e => e.1 == url)).map (fun e => e.2) =
        if url ∈ reqs then
          (some t, true) :: List.replicate (reqs.count url - 1) (some t, false)
        else []) ∧
      (url ∈ reqs →
        mapGet ((runChainRequests fetch reqs st).2).dataCache url = some t ∧
        mapGet ((runChainRequests fetch reqs st).2).depthCache url =
          some (calculateMaxDepth t.chain 1)) := by
  intro reqs
  induction reqs with
  | nil =>
    intro st h1 h2
    refine ⟨by simp [runChainRequests], ?_⟩
    intro hmem
    exact absurd hmem (List.not_mem_nil url)
  | cons u rest ih =>
    intro st h1 h2
    rw [runChainRequests_cons]
    by_cases hu : u = url
    · subst hu
      have hg : getEvolutionChain fetch u st =
          (some t, ⟨mapSet st.dataCache u t, mapSet st.depthCache u (calculateMaxDepth t.chain 1)⟩,
            true) := by
        unfold getEvolutionChain
        rw [h1, h2]
      rw [hg]
      have hd1 : mapGet (mapSet st.dataCache u t) u = some t := mapGet_mapSet_same _ _ _
      have hd2 : mapGet (mapSet st.depthCache u (calculateMaxDepth t.chain 1)) u =
          some (calculateMaxDepth t.chain 1) := mapGet_mapSet_same _ _ _
      have hrec := runChainRequests_hit fetch t (calculateMaxDepth t.chain 1) u rest
        ⟨mapSet st.dataCache u t, mapSet st.depthCache u (calculateMaxDepth t.chain 1)⟩ hd1 hd2
      refine ⟨?_, fun _ => ⟨hrec.2.1, hrec.2.2⟩⟩
      simp only [List.filter_cons]
      rw [if_pos (by simp)]
      simp only [List.map_cons, hrec.1]
      rw [if_pos (List.mem_cons_self u rest)]
      simp [List.count_cons]
    · have hpres := getEvolutionChain_preserves fetch u url st hu
      have hrec := ih (getEvolutionChain fetch u st).2.1 (hpres.1.trans h1) h2
      have hmemiff : url ∈ u :: rest ↔ url ∈ rest := by
        constructor
        · intro hm
          rcases List.mem_cons.mp hm with h | h
          · exact absurd h.symm hu
          · exact h
        · exact List.mem_cons_of_mem u
      refine ⟨?_, fun hm => hrec.2 (hmemiff.mp hm)⟩
      simp only [List.filter_cons]
      rw [if_neg (by simp [hu])]
      rw [hrec.1]
      by_cases hmem : url ∈ rest
      · rw [if_pos hmem, if_pos (hmemiff.mpr hmem)]
        simp [List.count_cons, hu]
      · rw [if_neg hmem, if_neg (fun hc => hmem (hmemiff.mp hc))]

/-- Counting a predicate that fails on the replicated element. -/
theorem countP_replicate_zero (p : α → Bool) (a : α) (h : p a = false) :
    ∀ k, List.countP p (List.replicate k a) = 0 := by
  intro k
  induction k with
  | zero => simp
  | succ n ih => simp [List.replicate_succ, List.countP_cons, h, ih]

/-- C2.  Cache-hit guarantee of getEvolutionChain: for a chain reference that
the oracle resolves and that starts uncached, a run containing any number of
requests for it performs the network fetch exactly once — the first request
fetches and returns the tree, every later request returns the stored tree
without network access — and afterwards both the tree and its computed depth
sit in the caches. -/
theorem c2_cache_single_fetch (fetch : String → Option PokeApiEvolutionChain)
    (t : PokeApiEvolutionChain) (url : String) (reqs : List String) (st : CacheState)
    (hf : fetch url = some t) (hmiss : mapGet st.dataCache url = none) (hmem : url ∈ reqs) :
    (((runChainRequests fetch reqs st).1.filter (fun e => e.1 == url)).map (fun e => e.2) =
      (some t, true) :: List.replicate (reqs.count url - 1) (some t, false)) ∧
    ((runChainRequests fetch reqs st).1.filter (fun e => e.1 == url)).countP
      (fun e => e.2.2) = 1 ∧
    mapGet ((runChainRequests fetch reqs st).2).dataCache url = some t ∧
    mapGet ((runChainRequests fetch reqs st).2).depthCache url =
      some (calculateMaxDepth t.chain 1) := by
  have h := runChainRequests_miss fetch t url reqs st hmiss hf
  have hmain : ((runChainRequests fetch reqs st).1.filter (fun e => e.1 == url)).map
      (fun e => e.2) =
      (some t, true) :: List.replicate (reqs.count url - 1) (some t, false) := by
    rw [h.1, if_pos hmem]
  have hcaches := h.2 hmem
  refine ⟨hmain, ?_, hcaches.1, hcaches.2⟩
  have hcnt : List.countP (fun x => x.2)
      (((runChainRequests fetch reqs st).1.filter (fun e => e.1 == url)).map
        (fun e => e.2)) = 1 := by
    rw [hmain]
    simp [List.countP_cons, countP_replicate_zero (fun x : Option PokeApiEvolutionChain × Bool =>
      x.2) (some t, false) rfl]
  rw [List.countP_map] at hcnt
  simpa [Function.comp] using hcnt

/-- Witness for C2: two requests for the bulbasaur chain against empty caches
yield one fetching entry and one cache hit. -/
theorem c2_cache_single_fetch_witness :
    (((runChainRequests cfBulba [chainUrl1, chainUrl1] emptyCache).1.filter
        (fun e => e.1 == chainUrl1)).map (fun e => e.2) =
      (some bulbaDoc, true) ::
        List.replicate ([chainUrl1, chainUrl1].count chainUrl1 - 1) (some bulbaDoc, false)) ∧
    ((runChainRequests cfBulba [chainUrl1, chainUrl1] emptyCache).1.filter
      (fun e => e.1 == chainUrl1)).countP (fun e => e.2.2) = 1 ∧
    mapGet ((runChainRequests cfBulba [chainUrl1, chainUrl1] emptyCache).2).dataCache
      chainUrl1 = some bulbaDoc ∧
    mapGet ((runChainRequests cfBulba [chainUrl1, chainUrl1] emptyCache).2).depthCache
      chainUrl1 = some (calculateMaxDepth bulbaDoc.chain 1) :=
  c2_cache_single_fetch cfBulba bulbaDoc chainUrl1 [chainUrl1, chainUrl1] emptyCache
    rfl rfl (List.mem_cons_self chainUrl1 [chainUrl1])

/-- C10.  A failed chain fetch is not cached: on a cache miss whose network
fetch fails, getEvolutionChain returns no value, leaves both the data cache
and the depth cache exactly as they were, and a subsequent request for the
same reference performs a fresh network fetch instead of returning a cached
failure. -/
theorem c10_failed_fetch_not_cached (fetch : String → Option PokeApiEvolutionChain)
    (url : String) (st : CacheState)
    (hmiss : mapGet st.dataCache url = none) (hf : fetch url = none) :
    getEvolutionChain fetch url st = (none, st, true) ∧
    getEvolutionChain fetch url ((getEvolutionChain fetch url st).2.1) = (none, st, true) := by
  have h : getEvolutionChain fetch url st = (none, st, true) := by
    unfold getEvolutionChain
    rw [hmiss, hf]
  refine ⟨h, ?_⟩
  rw [h]
  exact h

/-- Witness for C10: a failing fetch of the bulbasaur chain url against empty
caches returns none twice, fetching both times. -/
theorem c10_failed_fetch_not_cached_witness :
    getEvolutionChain cfNone chainUrl1 emptyCache = (none, emptyCache, true) ∧
    getEvolutionChain cfNone chainUrl1
      ((getEvolutionChain cfNone chainUrl1 emptyCache).2.1) = (none, emptyCache, true) :=
  c10_failed_fetch_not_cached cfNone chainUrl1 emptyCache rfl rfl

/-- Membership after a Set-style insertion. -/
theorem mem_addUnique (acc : List String) (y x : String) :
    x ∈ addUnique acc y ↔ x ∈ acc ∨ x = y := by
  by_cases h : y ∈ acc
  · simp only [addUnique, if_pos h]
    constructor
    · exact Or.inl
    · rintro (hx | rfl)
      · exact hx
      · exact h
  · simp [addUnique, h]

/-- Set-style insertion keeps the accumulator duplicate-free. -/
theorem nodup_addUnique (acc : List String) (y : String) (h : acc.Nodup) :
    (addUnique acc y).Nodup := by
  by_cases hy : y ∈ acc
  · simpa [addUnique, hy] using h
  · simp [addUnique, hy, List.nodup_append, h]

/-- Set-style insertion is idempotent. -/
theorem addUnique_idem (acc : List String) (y : String) :
    addUnique (addUnique acc y) y = addUnique acc y := by
  by_cases h : y ∈ acc
  · simp [addUnique, h]
  · simp [addUnique, h]

/-- The inner detail loop of extractLevelUpMoves adds the move name exactly
when some detail has the level-up learn method. -/
theorem foldDetails_eq (name : String) (ds : List VersionGroupDetail) :
    ∀ acc, ds.foldl (fun a d =>
        if d.move_learn_method.name == "level-up" then addUnique a name else a) acc =
      if ds.any (fun d => d.move_learn_method.name == "level-up") then addUnique acc name
      else acc := by
  induction ds with
  | nil => intro acc; simp
  | cons d ds' ih =>
    intro acc
    simp only [List.foldl_cons, List.any_cons]
    by_cases hd : (d.move_learn_method.name == "level-up") = true
    · rw [if_pos hd, ih (addUnique acc name)]
      by_cases hany : (ds'.any (fun d => d.move_learn_method.name == "level-up")) = true
      · simp [hd, hany, addUnique_idem]
      · simp [hd, hany]
    · rw [if_neg hd, ih acc]
      rw [Bool.not_eq_true] at hd
      simp [hd]

/-- Membership in the collected move-name accumulator. -/
theorem mem_collectFold (moves : List PokeApiMove) :
    ∀ (acc : List String) (x : String),
      x ∈ moves.foldl (fun acc moveData =>
        moveData.version_group_details.foldl (fun acc2 detail =>
          if detail.move_learn_method.name == "level-up" then addUnique acc2 moveData.move.name
          else acc2) acc) acc ↔
      x ∈ acc ∨ ∃ m ∈ moves, m.move.name = x ∧
        (m.version_group_details.any (fun d => d.move_learn_method.name == "level-up")) = true := by
  induction moves with
  | nil => intro acc x; simp
  | cons m ms ih =>
    intro acc x
    simp only [List.foldl_cons]
    rw [foldDetails_eq m.move.name m.version_group_details acc]
    by_cases hany : (m.version_group_details.any
        (fun d => d.move_learn_method.name == "level-up")) = true
    · rw [if_pos hany, ih]
      simp only [mem_addUnique, List.mem_cons]
      constructor
      · rintro ((hx | rfl) | ⟨m', hm', hname, hany'⟩)
        · exact Or.inl hx
        · exact Or.inr ⟨m, Or.inl rfl, rfl, hany⟩
        · exact Or.inr ⟨m', Or.inr hm', hname, hany'⟩
      · rintro (hx | ⟨m', hm' | hm', hname, hany'⟩)
        · exact Or.inl (Or.inl hx)
        · subst hm'
          subst hname
          exact Or.inl (Or.inr rfl)
        · exact Or.inr ⟨m', hm', hname, hany'⟩
    · rw [if_neg hany, ih]
      simp only [List.mem_cons]
      constructor
      · rintro (hx | ⟨m', hm', hname, hany'⟩)
        · exact Or.inl hx
        · exact Or.inr ⟨m', Or.inr hm', hname, hany'⟩
      · rintro (hx | ⟨m', hm' | hm', hname, hany'⟩)
        · exact Or.inl hx
        · subst hm'
          exact absurd hany' hany
        · exact Or.inr ⟨m', hm', hname, hany'⟩

/-- The collected move-name accumulator stays duplicate-free. -/
theorem nodup_collectFold (moves : List PokeApiMove) :
    ∀ acc : List String, acc.Nodup →
      (moves.foldl (fun acc moveData =>
        moveData.version_group_details.foldl (fun acc2 detail =>
          if detail.move_learn_method.name == "level-up" then addUnique acc2 moveData.move.name
          else acc2) acc) acc).Nodup := by
  induction moves with
  | nil => intro acc h; exact h
  | cons m ms ih =>
    intro acc h
    simp only [List.foldl_cons]
    rw [foldDetails_eq m.move.name m.version_group_details acc]
    by_cases hany : (m.version_group_details.any
        (fun d => d.move_learn_method.name == "level-up")) = true
    · rw [if_pos hany]
      exact ih _ (nodup_addUnique acc m.move.name h)
    · rw [if_neg hany]
      exact ih _ h

/-- Totality of the lexicographic string order. -/
theorem strLe_total : ∀ a b : String, strLe a b = true ∨ strLe b a = true := by
  intro a b
  simp only [strLe, decide_eq_true_eq]
  exact le_total a b

/-- Transitivity of the lexicographic string order. -/
theorem strLe_trans : ∀ a b c : String,
    strLe a b = true → strLe b c = true → strLe a c = true := by
  intro a b c
  simp only [strLe, decide_eq_true_eq]
  exact le_trans

/-- C9.  extractLevelUpMoves retains exactly the moves having at least one
version-group detail with the level-up learn method, deduplicates them, and
returns them lexicographically sorted; permuting the input move list leaves
the output identical. -/
theorem c9_move_pool_deterministic (moves moves' : List PokeApiMove)
    (hperm : moves.Perm moves') :
    extractLevelUpMoves moves = extractLevelUpMoves moves' ∧
    (extractLevelUpMoves moves).Pairwise (fun a b => a ≤ b) ∧
    (extractLevelUpMoves moves).Nodup ∧
    (∀ n, n ∈ extractLevelUpMoves moves ↔
      ∃ m ∈ moves, m.move.name = n ∧
        ∃ d ∈ m.version_group_details, d.move_learn_method.name = "level-up") := by
  have hmemc : ∀ (ms : List PokeApiMove) (x : String), x ∈ collectLevelUpMoves ms ↔
      ∃ m ∈ ms, m.move.name = x ∧
        (m.version_group_details.any (fun d => d.move_learn_method.name == "level-up")) = true := by
    intro ms x
    rw [show collectLevelUpMoves ms = ms.foldl (fun acc moveData =>
      moveData.version_group_details.foldl (fun acc2 detail =>
        if detail.move_learn_method.name == "level-up" then addUnique acc2 moveData.move.name
        else acc2) acc) [] from rfl, mem_collectFold]
    simp
  have hnodupc : ∀ ms : List PokeApiMove, (collectLevelUpMoves ms).Nodup := by
    intro ms
    exact nodup_collectFold ms [] List.nodup_nil
  have hsorted : ∀ ms : List PokeApiMove,
      (extractLevelUpMoves ms).Pairwise (fun a b => a ≤ b) := by
    intro ms
    exact (stableSort_sorted strLe strLe_total strLe_trans (collectLevelUpMoves ms)).imp
      (fun h => by simpa [strLe] using h)
  have hnodup : ∀ ms : List PokeApiMove, (extractLevelUpMoves ms).Nodup := by
    intro ms
    exact ((stableSort_perm strLe (collectLevelUpMoves ms)).nodup_iff).mpr (hnodupc ms)
  refine ⟨?_, hsorted moves, hnodup moves, ?_⟩
  · have hpermc : (collectLevelUpMoves moves).Perm (collectLevelUpMoves moves') := by
      rw [List.perm_ext_iff_of_nodup (hnodupc moves) (hnodupc moves')]
      intro a
      rw [hmemc moves a, hmemc moves' a]
      constructor
      · rintro ⟨m, hm, h⟩
        exact ⟨m, hperm.mem_iff.mp hm, h⟩
      · rintro ⟨m, hm, h⟩
        exact ⟨m, hperm.mem_iff.mpr hm, h⟩
    have hp : (extractLevelUpMoves moves).Perm (extractLevelUpMoves moves') :=
      ((stableSort_perm strLe _).trans hpermc).trans (stableSort_perm strLe _).symm
    haveI : IsAntisymm String (fun a b => a ≤ b) := ⟨fun _ _ => le_antisymm⟩
    exact List.eq_of_perm_of_sorted hp (hsorted moves) (hsorted moves')
  · intro n
    rw [show extractLevelUpMoves moves = stableSort strLe (collectLevelUpMoves moves) from rfl,
      mem_stableSort, hmemc moves n]
    simp [List.any_eq_true]

/-- Witness for C9: the three sample moves in two different orders produce the
same sorted duplicate-free pool. -/
theorem c9_move_pool_deterministic_witness :
    extractLevelUpMoves [mvTackle, mvGrowl, mvCut] =
      extractLevelUpMoves [mvCut, mvGrowl, mvTackle] ∧
    (extractLevelUpMoves [mvTackle, mvGrowl, mvCut]).Nodup :=
  ⟨(c9_move_pool_deterministic [mvTackle, mvGrowl, mvCut] [mvCut, mvGrowl, mvTackle]
      (by decide)).1,
   (c9_move_pool_deterministic [mvTackle, mvGrowl, mvCut] [mvCut, mvGrowl, mvTackle]
      (by decide)).2.2.1⟩

/-- C1.  Starter candidacy: whenever fetchPokemonData produces a record and
the evolution chain tree was successfully obtained for the species, the
record's is_starter_candidate field is true exactly when the tree's maximum
depth is at least 3 and the name of the tree's root equals the species name
case-insensitively; consequently it is false for every non-root species and
for every chain of depth below 3. -/
theorem c1_starter_candidate (pokemonFetch : String → Option PokeApiPokemon)
    (chainFetch : String → Option PokeApiEvolutionChain)
    (pokemonName speciesName : String) (generation : Int)
    (si : PokeApiPokemonSpecies) (url : String) (ec : PokeApiEvolutionChain)
    (st st' : CacheState) (rec : PokemonSpeciesOutput)
    (hurl : si.evolution_chain = some url) (hne : url ≠ "")
    (hchain : (getEvolutionChain chainFetch url st).1 = some ec)
    (hrec : fetchPokemonData pokemonFetch chainFetch pokemonName speciesName generation
      (some si) st = (some rec, st')) :
    rec.is_starter_candidate = true ↔
      3 ≤ calculateMaxDepth ec.chain 1 ∧
        toLowerStr ec.chain.species.name = toLowerStr speciesName := by
  rcases hG : getEvolutionChain chainFetch url st with ⟨res, st2, fb⟩
  have hres : res = some ec := by
    have h2 := hchain
    rw [hG] at h2
    exact h2
  subst hres
  have hci : chainInfoFor chainFetch (some si) speciesName st =
      (decide (3 ≤ calculateMaxDepth ec.chain 1) &&
        (toLowerStr ec.chain.species.name == toLowerStr speciesName),
       (match findSpeciesNode ec.chain speciesName with
        | some speciesNode => extractEvolutions speciesNode
        | none => []),
       st2) := by
    simp only [chainInfoFor, hurl, hG]
    rw [if_neg hne]
  cases hpf : pokemonFetch pokemonName with
  | none =>
    simp only [fetchPokemonData, hpf, Prod.mk.injEq] at hrec
    exact absurd hrec.1 (by simp)
  | some pokemon =>
    cases hts : stableSort slotLe pokemon.types with
    | nil =>
      simp only [fetchPokemonData, hpf, hts, Prod.mk.injEq] at hrec
      exact absurd hrec.1 (by simp)
    | cons t0 trest =>
      simp only [fetchPokemonData, hpf, hts, hci, Prod.mk.injEq, Option.some.injEq] at hrec
      have hrec1 := hrec.1
      subst hrec1
      simp [Bool.and_eq_true, decide_eq_true_eq]

/-- Witness for C1: the bulbasaur record produced against the three-stage
bulbasaur chain. -/
theorem c1_starter_candidate_witness :
    bulbaRecord.is_starter_candidate = true ↔
      3 ≤ calculateMaxDepth bulbaDoc.chain 1 ∧
        toLowerStr bulbaDoc.chain.species.name = toLowerStr "bulbasaur" :=
  c1_starter_candidate pfBulba cfBulba "bulbasaur" "bulbasaur" 1 bulbaSpecies chainUrl1
    bulbaDoc emptyCache bulbaCacheAfter bulbaRecord rfl (by decide) rfl rfl

/-- Counterexample to C6 as stated: for a successfully fetched species whose
varieties list is empty, the resolver falls back to the input name but still
returns the fetched species document — the species metadata is not absent and
the chain reference remains available, contradicting the claim that the
empty-varieties fallback yields no species metadata. -/
theorem c6_resolver_counterexample :
    resolveDefaultPokemonNameAndInfo sfMew "mew" = ("mew", some mewSpecies) ∧
    mewSpecies.varieties = [] ∧
    mewSpecies.evolution_chain ≠ none ∧
    (resolveDefaultPokemonNameAndInfo sfMew "mew").2 ≠ none := by
  refine ⟨rfl, rfl, by simp [mewSpecies], ?_⟩
  have h : (resolveDefaultPokemonNameAndInfo sfMew "mew").2 = some mewSpecies := rfl
  rw [h]
  exact Option.some_ne_none _

/-- C6 as amended.  The resolver selects the variety flagged default, else the
first listed variety, else falls back to the original input name; in every
success case (the empty-varieties fallback included) the fetched species
document is returned alongside, and only a failed fetch yields the original
name with absent species metadata; no case raises. -/
theorem c6_resolver_amended (sf : String → Option PokeApiPokemonSpecies) (name : String)
    (sp : PokeApiPokemonSpecies) :
    (sf name = none → resolveDefaultPokemonNameAndInfo sf name = (name, none)) ∧
    (sf name = some sp →
      (resolveDefaultPokemonNameAndInfo sf name).2 = some sp ∧
      (∀ v, sp.varieties.find? (fun v => v.is_default) = some v →
        (resolveDefaultPokemonNameAndInfo sf name).1 = v.pokemon.name) ∧
      (sp.varieties.find? (fun v => v.is_default) = none →
        ∀ v rest, sp.varieties = v :: rest →
          (resolveDefaultPokemonNameAndInfo sf name).1 = v.pokemon.name) ∧
      (sp.varieties = [] → (resolveDefaultPokemonNameAndInfo sf name).1 = name)) := by
  constructor
  · intro h
    simp only [resolveDefaultPokemonNameAndInfo, h]
  · intro h
    refine ⟨?_, ?_, ?_, ?_⟩
    · simp only [resolveDefaultPokemonNameAndInfo, h]
    · intro v hv
      simp only [resolveDefaultPokemonNameAndInfo, h, hv]
    · intro hnone v rest hvar
      rw [hvar] at hnone
      simp only [resolveDefaultPokemonNameAndInfo, h, hvar, hnone]
    · intro hvar
      simp only [resolveDefaultPokemonNameAndInfo, h, hvar]
      simp [List.find?]

/-- Witness for the amended C6 at the empty-varieties species. -/
theorem c6_resolver_amended_witness :
    (resolveDefaultPokemonNameAndInfo sfMew "mew").2 = some mewSpecies ∧
    (resolveDefaultPokemonNameAndInfo sfMew "mew").1 = "mew" :=
  ⟨((c6_resolver_amended sfMew "mew" mewSpecies).2 rfl).1,
   ((c6_resolver_amended sfMew "mew" mewSpecies).2 rfl).2.2.2 rfl⟩

/-- Shape of one loop iteration when the form fetch produces a record. -/
theorem processSpeciesStep_some (sf : String → Option PokeApiPokemonSpecies)
    (pf : String → Option PokeApiPokemon) (cf : String → Option PokeApiEvolutionChain)
    (g : Int) (acc : LoopState) (s rn : String) (si : Option PokeApiPokemonSpecies)
    (rec : PokemonSpeciesOutput) (st2 : CacheState)
    (hr : resolveDefaultPokemonNameAndInfo sf s = (rn, si))
    (h : fetchPokemonData pf cf rn s g si acc.cache = (some rec, st2)) :
    processSpeciesStep sf pf cf g acc s =
      { records := acc.records ++ [rec], successCount := acc.successCount + 1,
        errorCount := acc.errorCount, cache := st2 } := by
  simp only [processSpeciesStep, hr, h]

/-- Shape of one loop iteration when the form fetch fails. -/
theorem processSpeciesStep_none (sf : String → Option PokeApiPokemonSpecies)
    (pf : String → Option PokeApiPokemon) (cf : String → Option PokeApiEvolutionChain)
    (g : Int) (acc : LoopState) (s rn : String) (si : Option PokeApiPokemonSpecies)
    (st2 : CacheState)
    (hr : resolveDefaultPokemonNameAndInfo sf s = (rn, si))
    (h : fetchPokemonData pf cf rn s g si acc.cache = (none, st2)) :
    processSpeciesStep sf pf cf g acc s =
      { records := acc.records, successCount := acc.successCount,
        errorCount := acc.errorCount + 1, cache := st2 } := by
  simp only [processSpeciesStep, hr, h]

/-- Counting invariant of the per-species loop: every species contributes to
exactly one of the two counters. -/
theorem processGeneration_counts_aux (sf : String → Option PokeApiPokemonSpecies)
    (pf : String → Option PokeApiPokemon) (cf : String → Option PokeApiEvolutionChain)
    (g : Int) : ∀ (roster : List String) (acc : LoopState),
    (roster.foldl (processSpeciesStep sf pf cf g) acc).successCount +
      (roster.foldl (processSpeciesStep sf pf cf g) acc).errorCount =
      acc.successCount + acc.errorCount + roster.length := by
  intro roster
  induction roster with
  | nil => intro acc; simp
  | cons s rest ih =>
    intro acc
    simp only [List.foldl_cons, List.length_cons]
    rw [ih]
    rcases hr : resolveDefaultPokemonNameAndInfo sf s with ⟨rn, si⟩
    rcases hfd : fetchPokemonData pf cf rn s g si acc.cache with ⟨pd, st2⟩
    cases pd with
    | some d =>
      rw [processSpeciesStep_some sf pf cf g acc s rn si d st2 hr hfd]
      dsimp only
      omega
    | none =>
      rw [processSpeciesStep_none sf pf cf g acc s rn si st2 hr hfd]
      dsimp only
      omega

/-- C7 as amended.  The loop never aborts: the two counters always sum to the
roster length, every species being counted exactly once.  A failing chain
fetch does not increment the failure counter: a species whose form fetch
succeeds but whose chain fetch fails still produces a record, with empty
evolutions and is_starter_candidate false and the caches untouched.  Only a
form-attribute fetch returning nothing increments the failure counter, and
the loop then proceeds with the remaining species; a produced record
increments the success counter and is appended. -/
theorem c7_failure_isolation :
    (∀ (sf : String → Option PokeApiPokemonSpecies) (pf : String → Option PokeApiPokemon)
       (cf : String → Option PokeApiEvolutionChain) (g : Int) (roster : List String)
       (st : CacheState),
      (processGeneration sf pf cf g roster st).successCount +
        (processGeneration sf pf cf g roster st).errorCount = roster.length) ∧
    (∀ (pf : String → Option PokeApiPokemon) (cf : String → Option PokeApiEvolutionChain)
       (pokemonName speciesName : String) (g : Int) (si : PokeApiPokemonSpecies)
       (st : CacheState) (p : PokeApiPokemon) (t0 : PokeApiTypeSlot)
       (trest : List PokeApiTypeSlot) (url : String),
      pf pokemonName = some p → stableSort slotLe p.types = t0 :: trest →
      si.evolution_chain = some url → url ≠ "" → mapGet st.dataCache url = none →
      cf url = none →
      ∃ rec, fetchPokemonData pf cf pokemonName speciesName g (some si) st = (some rec, st) ∧
        rec.evolutions = [] ∧ rec.is_starter_candidate = false) ∧
    (∀ (sf : String → Option PokeApiPokemonSpecies) (pf : String → Option PokeApiPokemon)
       (cf : String → Option PokeApiEvolutionChain) (g : Int) (acc : LoopState)
       (s rn : String) (si : Option PokeApiPokemonSpecies) (st2 : CacheState),
      resolveDefaultPokemonNameAndInfo sf s = (rn, si) →
      (fetchPokemonData pf cf rn s g si acc.cache = (none, st2) →
        (processSpeciesStep sf pf cf g acc s).errorCount = acc.errorCount + 1 ∧
        (processSpeciesStep sf pf cf g acc s).successCount = acc.successCount ∧
        (processSpeciesStep sf pf cf g acc s).records = acc.records) ∧
      (∀ rec, fetchPokemonData pf cf rn s g si acc.cache = (some rec, st2) →
        (processSpeciesStep sf pf cf g acc s).successCount = acc.successCount + 1 ∧
        (processSpeciesStep sf pf cf g acc s).errorCount = acc.errorCount ∧
        (processSpeciesStep sf pf cf g acc s).records = acc.records ++ [rec])) := by
  refine ⟨?_, ?_, ?_⟩
  · intro sf pf cf g roster st
    have h := processGeneration_counts_aux sf pf cf g roster ⟨[], 0, 0, st⟩
    simpa [processGeneration] using h
  · intro pf cf pokemonName speciesName g si st p t0 trest url hp hts hurl hne hmiss hcf
    have hg : getEvolutionChain cf url st = (none, st, true) := by
      unfold getEvolutionChain
      rw [hmiss, hcf]
    have hci : chainInfoFor cf (some si) speciesName st = (false, [], st) := by
      simp only [chainInfoFor, hurl, hg]
      rw [if_neg hne]
    refine ⟨{ species_id := padStart3 (toString p.id)
              display_name := capitalize speciesName
              generation := g
              primary_type := mapType t0.type.name
              secondary_type :=
                (match trest with | t1 :: _ => some (mapType t1.type.name) | [] => none)
              base_stats := mapStats p.stats
              move_pool := extractLevelUpMoves p.moves
              is_starter_candidate := false
              evolutions := [] }, ?_, rfl, rfl⟩
    simp only [fetchPokemonData, hp, hts, hci]
    cases trest <;> rfl
  · intro sf pf cf g acc s rn si st2 hr
    constructor
    · intro h
      rw [processSpeciesStep_none sf pf cf g acc s rn si st2 hr h]
      exact ⟨rfl, rfl, rfl⟩
    · intro rec h
      rw [processSpeciesStep_some sf pf cf g acc s rn si rec st2 hr h]
      exact ⟨rfl, rfl, rfl⟩

/-- Witness for the amended C7: a one-species roster whose chain fetch always
fails still yields one success and no failure, and the concrete degraded
record exists. -/
theorem c7_failure_isolation_witness :
    ((processGeneration sfBulba pfBulba cfNone 1 ["bulbasaur"] emptyCache).successCount +
      (processGeneration sfBulba pfBulba cfNone 1 ["bulbasaur"] emptyCache).errorCount = 1) ∧
    (∃ rec, fetchPokemonData pfBulba cfNone "bulbasaur" "bulbasaur" 1 (some bulbaSpecies)
        emptyCache = (some rec, emptyCache) ∧
      rec.evolutions = [] ∧ rec.is_starter_candidate = false) :=
  ⟨c7_failure_isolation.1 sfBulba pfBulba cfNone 1 ["bulbasaur"] emptyCache,
   c7_failure_isolation.2.1 pfBulba cfNone "bulbasaur" "bulbasaur" 1 bulbaSpecies emptyCache
     bulbaPokemon ⟨1, ⟨"grass", ""⟩⟩ [] chainUrl1 rfl rfl rfl (by decide) rfl rfl⟩

/-- Counterexample to C7 as stated: a species whose chain fetch fails is still
counted as a success (failure counter stays 0) and produces a record, so a
chain-fetch failure does not increment the failure counter. -/
theorem c7_loop_counterexample :
    cfNone chainUrl1 = none ∧
    bulbaSpecies.evolution_chain = some chainUrl1 ∧
    (processGeneration sfBulba pfBulba cfNone 1 ["bulbasaur"] emptyCache).errorCount = 0 ∧
    (processGeneration sfBulba pfBulba cfNone 1 ["bulbasaur"] emptyCache).successCount = 1 ∧
    (processGeneration sfBulba pfBulba cfNone 1 ["bulbasaur"] emptyCache).records.map
      (fun r => (r.evolutions, r.is_starter_candidate)) = [([], false)] :=
  ⟨rfl, rfl, rfl, rfl, rfl⟩
